import Mathlib

/-!
Shallow embedding of `src/pdf.js` (html2pdf): the layout scanner
(`splitElement` / `updatePos` / `traversingNodes`), the fixed pager, the page
compositor (`outputWithAdaptive` / `outputWithFixedSize`), the jsPDF helper
methods (`addBlank`, `addHeader`, `addFooter`, `toCanvas`, `output2`) and the
orchestrator `outputPdf`.

JavaScript numbers are embedded as exact rationals; the stateful jsPDF
document object is embedded as an explicit `PdfState` (a trace of drawing
operations plus the per-call header/footer caches and rasterizer call
counters) threaded through each operation.
-/

namespace Html2Pdf

/-- Page width constant `A4_WIDTH = 592.28` from the source. -/
def A4_WIDTH : ℚ := 592.28

/-- Page height constant `A4_HEIGHT = 841.89` from the source. -/
def A4_HEIGHT : ℚ := 841.89

/-- The data of one DOM node as consumed by `traversingNodes`: its
`nodeType`, whether `dataset[itemName]` / `dataset[groupName]` is present,
and its `offsetHeight`. -/
structure NodeData where
  nodeType : Nat
  isItem : Bool
  isGroup : Bool
  offsetHeight : ℚ

/-- A DOM node: its data plus its `childNodes`. -/
inductive Node where
  | node (data : NodeData) (children : List Node)

/-- An element-like value passed as `element`, `header` or `footer`.
`isElement` embeds the JS `instanceof HTMLElement` test; `canvasWidth` and
`canvasHeight` are the pixel dimensions `html2canvas` reports for it;
`offsetWidth` and `children` are used by the adaptive traversal. -/
structure El where
  isElement : Bool
  canvasWidth : ℚ
  canvasHeight : ℚ
  offsetWidth : ℚ
  children : List Node

/-- The result of `toCanvas`: a rasterized image with its dimensions. -/
structure Img where
  width : ℚ
  height : ℚ

/-- `jsPDF.API.toCanvas`: rasterize `element` at the requested `width`; the
height is scaled proportionally, `height = (width / canvasWidth) * canvasHeight`. -/
def toCanvas (e : El) (width : ℚ) : Img :=
  { width := width, height := width / e.canvasWidth * e.canvasHeight }

/-- `updatePos` from `outputWithAdaptive.splitElement`: the state is the pair
`(res, pos)`; if `pos + height <= contentHeight` the item stays on the current
page, otherwise `pos` is pushed and a new page starts at `height`. -/
def updatePos (contentHeight : ℚ) (st : List ℚ × ℚ) (height : ℚ) : List ℚ × ℚ :=
  if st.2 + height ≤ contentHeight then (st.1, st.2 + height)
  else (st.1 ++ [st.2], height)

/-- `traversingNodes` from `splitElement`: walk the node list in document
order threading the `(res, pos)` state; non-element nodes (`nodeType !== 1`)
are skipped, item nodes contribute `contentWidth / elementWidth * offsetHeight`
via `updatePos`, group nodes are recursed into, other nodes are ignored. -/
def traversingNodes (contentWidth elementWidth contentHeight : ℚ) :
    List Node → (List ℚ × ℚ) → (List ℚ × ℚ)
  | [], st => st
  | Node.node d cs :: ns, st =>
      traversingNodes contentWidth elementWidth contentHeight ns
        (if d.nodeType ≠ 1 then st
         else if d.isItem then
           updatePos contentHeight st (contentWidth / elementWidth * d.offsetHeight)
         else if d.isGroup then
           traversingNodes contentWidth elementWidth contentHeight cs st
         else st)

/-- `splitElement` from `outputWithAdaptive`: traverse `element.childNodes`
starting from `(res, pos) = ([], 0)` and finally push the last accumulator. -/
def splitElement (contentWidth contentHeight : ℚ) (element : El) : List ℚ :=
  let st := traversingNodes contentWidth element.offsetWidth contentHeight
    element.children ([], 0)
  st.1 ++ [st.2]

/-- The native `offsetHeight`s of the item nodes encountered by
`traversingNodes`, in traversal order (skipping non-element nodes and
recursing only into group nodes). -/
def listItems : List Node → List ℚ
  | [] => []
  | Node.node d cs :: ns =>
      (if d.nodeType ≠ 1 then []
       else if d.isItem then [d.offsetHeight]
       else if d.isGroup then listItems cs
       else []) ++ listItems ns

/-- The scaled heights `contentWidth / element.offsetWidth * offsetHeight` of
the item nodes encountered by the traversal of `element.childNodes`. -/
def scaledItems (contentWidth : ℚ) (element : El) : List ℚ :=
  (listItems element.children).map (fun h => contentWidth / element.offsetWidth * h)

/-- The layout scan as a fold: feed a list of scaled item heights through
`updatePos` from `([], 0)` and push the final accumulator. -/
def scanHeights (contentHeight : ℚ) (hs : List ℚ) : List ℚ :=
  let st := hs.foldl (updatePos contentHeight) ([], 0)
  st.1 ++ [st.2]

theorem traversingNodes_eq_foldl (cw eW cH : ℚ) :
    ∀ (ns : List Node) (st : List ℚ × ℚ),
      traversingNodes cw eW cH ns st
        = ((listItems ns).map (fun h => cw / eW * h)).foldl (updatePos cH) st
  | [], st => by
      rw [traversingNodes, listItems]
      rfl
  | Node.node d cs :: ns, st => by
      rw [traversingNodes, listItems]
      split_ifs with h1 h2 h3
      · rw [traversingNodes_eq_foldl cw eW cH ns st]; simp
      · rw [traversingNodes_eq_foldl cw eW cH ns
          (updatePos cH st (cw / eW * d.offsetHeight))]
        simp
      · rw [traversingNodes_eq_foldl cw eW cH cs st,
          traversingNodes_eq_foldl cw eW cH ns]
        simp [List.foldl_append]
      · rw [traversingNodes_eq_foldl cw eW cH ns st]; simp
  termination_by ns => sizeOf ns

theorem splitElement_eq_scanHeights (cw cH : ℚ) (element : El) :
    splitElement cw cH element = scanHeights cH (scaledItems cw element) := by
  rw [splitElement, scanHeights, scaledItems,
    traversingNodes_eq_foldl cw element.offsetWidth cH element.children ([], 0)]

theorem foldl_updatePos_sum (cH : ℚ) :
    ∀ (hs : List ℚ) (st : List ℚ × ℚ),
      (hs.foldl (updatePos cH) st).1.sum + (hs.foldl (updatePos cH) st).2
        = st.1.sum + st.2 + hs.sum := by
  intro hs
  induction hs with
  | nil => intro st; simp
  | cons h t ih =>
      intro st
      rw [List.foldl_cons, ih]
      rw [updatePos]
      split_ifs with hle
      · simp; ring
      · simp; ring

theorem scanHeights_sum (cH : ℚ) (hs : List ℚ) :
    (scanHeights cH hs).sum = hs.sum := by
  rw [scanHeights]
  rw [List.sum_append]
  have := foldl_updatePos_sum cH hs ([], 0)
  simpa using this

theorem foldl_updatePos_bound (cH : ℚ) (U : List ℚ) :
    ∀ (hs : List ℚ) (st : List ℚ × ℚ), (∀ h ∈ hs, h ∈ U) →
      ((∀ e ∈ st.1, e ≤ cH ∨ (cH < e ∧ e ∈ U))
        ∧ (st.2 ≤ cH ∨ (cH < st.2 ∧ st.2 ∈ U))) →
      ((∀ e ∈ (hs.foldl (updatePos cH) st).1, e ≤ cH ∨ (cH < e ∧ e ∈ U))
        ∧ ((hs.foldl (updatePos cH) st).2 ≤ cH
            ∨ (cH < (hs.foldl (updatePos cH) st).2
                ∧ (hs.foldl (updatePos cH) st).2 ∈ U))) := by
  intro hs
  induction hs with
  | nil => intro st _ hst; simpa using hst
  | cons h t ih =>
      intro st hmem hst
      rw [List.foldl_cons]
      refine ih (updatePos cH st h) (fun x hx => hmem x (List.mem_cons_of_mem h hx)) ?_
      have hU : h ∈ U := hmem h (List.mem_cons_self h t)
      rw [updatePos]
      split_ifs with hle
      · exact ⟨hst.1, Or.inl hle⟩
      · refine ⟨?_, ?_⟩
        · intro e he
          rcases List.mem_append.mp he with he1 | he2
          · exact hst.1 e he1
          · rw [List.mem_singleton.mp he2]; exact hst.2
        · rcases le_or_lt h cH with hc | hc
          · exact Or.inl hc
          · exact Or.inr ⟨hc, hU⟩

theorem scanHeights_mem_bound (cH : ℚ) (h0 : 0 ≤ cH) (hs : List ℚ) :
    ∀ e ∈ scanHeights cH hs, e ≤ cH ∨ (cH < e ∧ e ∈ hs) := by
  intro e he
  have hb := foldl_updatePos_bound cH hs hs ([], 0) (fun x hx => hx)
    (by refine ⟨by simp, Or.inl h0⟩)
  rw [scanHeights] at he
  rcases List.mem_append.mp he with he1 | he2
  · exact hb.1 e he1
  · rw [List.mem_singleton.mp he2]; exact hb.2

/-- **C2.** For every tree of layout nodes and every `contentWidth` and
`contentHeight`, the sum of the entries of the Layout Scanner's output
sequence (`splitElement`) equals the sum of the scaled heights
`contentWidth / element.offsetWidth * offsetHeight` of all item nodes
encountered in the traversal. -/
theorem split_sum_eq (element : El) (cw cH : ℚ) :
    (splitElement cw cH element).sum = (scaledItems cw element).sum := by
  rw [splitElement_eq_scanHeights, scanHeights_sum]

/-- An item node of the given `offsetHeight` (an element node tagged with
`dataset[itemName]`, no children). -/
def itemNode (h : ℚ) : Node :=
  Node.node { nodeType := 1, isItem := true, isGroup := false, offsetHeight := h } []

/-- A root element whose three children are item nodes of native heights
300, 600 and 100, rendered at its own width 550 (scale factor 1). -/
def rootC3 : El :=
  { isElement := true, canvasWidth := 550, canvasHeight := 1000,
    offsetWidth := 550, children := [itemNode 300, itemNode 600, itemNode 100] }

/-- **C3.** For the input consisting of three items with scaled heights 300,
600 and 100 in document order and `contentHeight = 800`, the Layout Scanner
produces exactly the break sequence `[300, 700]`. -/
theorem split_example_break_sequence :
    splitElement 550 800 rootC3 = [300, 700] := by
  rw [splitElement_eq_scanHeights]
  have hs : scaledItems 550 rootC3 = [300, 600, 100] := by
    simp [scaledItems, rootC3, itemNode, listItems]
  rw [hs]
  norm_num [scanHeights, updatePos]

/-- **C4.** For every tree of layout nodes with non-negative item heights and
`0 ≤ contentHeight`, every entry of the Layout Scanner's output is at most
`contentHeight`, except that an entry may exceed `contentHeight` only when it
is the scaled height of a single item that alone exceeds `contentHeight`;
moreover an item exactly filling the remaining space (`pos + h = contentHeight`)
stays on the current page (`updatePos` does not close the page). -/
theorem split_entries_bounded (element : El) (cw cH : ℚ) (h0 : 0 ≤ cH)
    (_hpos : ∀ h ∈ scaledItems cw element, 0 ≤ h) :
    (∀ e ∈ splitElement cw cH element,
        e ≤ cH ∨ (cH < e ∧ e ∈ scaledItems cw element))
    ∧ ∀ (res : List ℚ) (pos h : ℚ), pos + h = cH →
        updatePos cH (res, pos) h = (res, pos + h) := by
  constructor
  · intro e he
    rw [splitElement_eq_scanHeights] at he
    exact scanHeights_mem_bound cH h0 (scaledItems cw element) e he
  · intro res pos h hfill
    rw [updatePos]
    simp only [if_pos (le_of_eq hfill)]

/-- A root element with no children at all. -/
def emptyRoot : El :=
  { isElement := true, canvasWidth := 550, canvasHeight := 0,
    offsetWidth := 550, children := [] }

theorem split_entries_bounded_witness :
    updatePos 800 ([], 300) 500 = ([], 300 + 500) :=
  (split_entries_bounded emptyRoot 550 800 (by norm_num)
    (by simp [scaledItems, emptyRoot, listItems])).2 [] 300 500 (by norm_num)

/-! ## The jsPDF document state and the page compositor -/

/-- One drawing operation performed on the jsPDF document: `image` is an
`addImage` of the shared rendered content bitmap, `blank` records a call
`addBlank(x, y, w, h)` (which fills `rect(x, y, ⌈w⌉, ⌈h⌉)`), `headerImage` /
`footerImage` are the `addImage` calls made by `addHeader` / `addFooter`, and
`page` is an `addPage` call. -/
inductive Op where
  | image (x y w h : ℚ)
  | blank (x y w h : ℚ)
  | headerImage (x y w h : ℚ)
  | footerImage (x y w h : ℚ)
  | page
deriving DecidableEq

/-- The state of one jsPDF document during a generation call: the trace of
drawing operations in order, the per-call `__header` / `__footer` caches, and
how often the rasterizer (`html2canvas` via `toCanvas`) was invoked for the
root, the header and the footer. -/
structure PdfState where
  ops : List Op
  headerCache : Option Img
  footerCache : Option Img
  rootRaster : Nat
  headerRaster : Nat
  footerRaster : Nat

/-- A freshly constructed jsPDF document. -/
def initState : PdfState :=
  { ops := [], headerCache := none, footerCache := none,
    rootRaster := 0, headerRaster := 0, footerRaster := 0 }

/-- Append one drawing operation to the document trace. -/
def emit (s : PdfState) (o : Op) : PdfState :=
  { s with ops := s.ops ++ [o] }

/-- `jsPDF.API.addBlank`: fill an opaque white rectangle. The requested
rectangle is recorded; the drawn rectangle rounds width and height up
(`rect(x, y, Math.ceil(width), Math.ceil(height), 'F')`). -/
def addBlank (x y width height : ℚ) (s : PdfState) : PdfState :=
  emit s (Op.blank x y width height)

/-- The vertical extent `[y, y + ⌈h⌉]` of the rectangle actually drawn by an
`addBlank` call recorded as `Op.blank x y w h`, per `Math.ceil` in `addBlank`. -/
def drawnBottom (y h : ℚ) : ℚ := y + (⌈h⌉ : ℚ)

/-- `jsPDF.API.addHeader`: no-op unless `header` is an element; otherwise
rasterize it once (caching the bitmap in `__header`) and stamp it at the top
edge `(x, 0)`. -/
def addHeader (x width : ℚ) (header : El) (s : PdfState) : PdfState :=
  if header.isElement then
    match s.headerCache with
    | some img => emit s (Op.headerImage x 0 width img.height)
    | none =>
        let img := toCanvas header width
        { ops := s.ops ++ [Op.headerImage x 0 width img.height],
          headerCache := some img,
          footerCache := s.footerCache,
          rootRaster := s.rootRaster,
          headerRaster := s.headerRaster + 1,
          footerRaster := s.footerRaster }
  else s

/-- `jsPDF.API.addFooter`: no-op unless `footer` is an element; otherwise
rasterize it once (caching the bitmap in `__footer`) and stamp it
bottom-aligned at `(x, A4_HEIGHT - height)`. -/
def addFooter (x width : ℚ) (footer : El) (s : PdfState) : PdfState :=
  if footer.isElement then
    match s.footerCache with
    | some img => emit s (Op.footerImage x (A4_HEIGHT - img.height) width img.height)
    | none =>
        let img := toCanvas footer width
        { ops := s.ops ++ [Op.footerImage x (A4_HEIGHT - img.height) width img.height],
          headerCache := s.headerCache,
          footerCache := some img,
          rootRaster := s.rootRaster,
          headerRaster := s.headerRaster,
          footerRaster := s.footerRaster + 1 }
  else s

/-- The per-call parameters shared by both pagination modes (the `params`
object built in `outputPdf`): content box origin and size, the rendered
image's dimensions, the header/footer elements and their inclusion policy. -/
structure Config where
  baseX : ℚ
  baseY : ℚ
  contentWidth : ℚ
  contentHeight : ℚ
  width : ℚ
  height : ℚ
  header : El
  footer : El
  headerOnlyFirst : Bool
  footerOnlyLast : Bool

/-- The `addHeader(isFirst)` closure of `outputPdf`: stamp the header when
`isFirst || !headerOnlyFirst`. -/
def addHeaderIf (cfg : Config) (isFirst : Bool) (s : PdfState) : PdfState :=
  if isFirst || !cfg.headerOnlyFirst then
    addHeader cfg.baseX cfg.contentWidth cfg.header s
  else s

/-- The `addFooter(isLast)` closure of `outputPdf`: stamp the footer when
`isLast || !footerOnlyLast`. -/
def addFooterIf (cfg : Config) (isLast : Bool) (s : PdfState) : PdfState :=
  if isLast || !cfg.footerOnlyLast then
    addFooter cfg.baseX cfg.contentWidth cfg.footer s
  else s

/-- The body shared by both per-page loops: place the rendered image at
`(baseX, baseY - acc)`, mask the top margin on non-first pages, mask below
the content band of declared height `eh` on non-last pages, stamp header and
footer per policy, and append a new page when not on the last page. -/
def compositeStep (cfg : Config) (eh acc : ℚ) (isFirst isLast : Bool)
    (s : PdfState) : PdfState :=
  let s1 := emit s (Op.image cfg.baseX (cfg.baseY - acc) cfg.width cfg.height)
  let s2 := if isFirst then s1 else addBlank 0 0 A4_WIDTH cfg.baseY s1
  let s3 := if isLast then s2 else
    addBlank 0 (cfg.baseY + eh) A4_WIDTH (A4_HEIGHT - (cfg.baseY + eh)) s2
  let s4 := addHeaderIf cfg isFirst s3
  let s5 := addFooterIf cfg isLast s4
  if isLast then s5 else emit s5 Op.page

/-- The page loop of `outputWithAdaptive`: iterate over the break sequence,
tracking `accumulationHeight` and whether the current page is the first/last. -/
def compositeLoop (cfg : Config) :
    List ℚ → ℚ → Bool → PdfState → PdfState
  | [], _, _, s => s
  | eh :: rest, acc, isFirst, s =>
      compositeLoop cfg rest (acc + eh) false
        (compositeStep cfg eh acc isFirst rest.isEmpty s)

/-- `outputWithAdaptive`: compute the break sequence with `splitElement`,
then composite one page per entry. -/
def outputWithAdaptive (cfg : Config) (element : El) (s : PdfState) : PdfState :=
  compositeLoop cfg (splitElement cfg.contentWidth cfg.contentHeight element) 0 true s

/-- The number of pages of the fixed pager:
`pageNum = Math.ceil(height / contentHeight)`. -/
def fixedPageNum (cfg : Config) : Nat :=
  (⌈cfg.height / cfg.contentHeight⌉).toNat

/-- `outputWithFixedSize`: composite `pageNum` pages of nominal content height
`contentHeight`, placing the image at `(baseX, baseY - i * contentHeight)` on
page `i`. -/
def outputWithFixedSize (cfg : Config) (s : PdfState) : PdfState :=
  (List.range (fixedPageNum cfg)).foldl
    (fun (st : PdfState) (i : Nat) =>
      compositeStep cfg cfg.contentHeight ((i : ℚ) * cfg.contentHeight)
        (decide (i = 0)) (decide (i = fixedPageNum cfg - 1)) st) s

/-! ## Pure description of the operation trace -/

/-- The operations `addHeaderIf` appends: the header image when the policy
selects this page and the header is an element, nothing otherwise. -/
def headerOpsFor (cfg : Config) (isFirst : Bool) : List Op :=
  if isFirst || !cfg.headerOnlyFirst then
    (if cfg.header.isElement then
      [Op.headerImage cfg.baseX 0 cfg.contentWidth
        (toCanvas cfg.header cfg.contentWidth).height]
     else [])
  else []

/-- The operations `addFooterIf` appends. -/
def footerOpsFor (cfg : Config) (isLast : Bool) : List Op :=
  if isLast || !cfg.footerOnlyLast then
    (if cfg.footer.isElement then
      [Op.footerImage cfg.baseX
        (A4_HEIGHT - (toCanvas cfg.footer cfg.contentWidth).height)
        cfg.contentWidth (toCanvas cfg.footer cfg.contentWidth).height]
     else [])
  else []

/-- The operations one `compositeStep` appends to the document trace. -/
def stepOps (cfg : Config) (eh acc : ℚ) (isFirst isLast : Bool) : List Op :=
  Op.image cfg.baseX (cfg.baseY - acc) cfg.width cfg.height ::
    ((if isFirst then [] else [Op.blank 0 0 A4_WIDTH cfg.baseY])
      ++ ((if isLast then [] else
            [Op.blank 0 (cfg.baseY + eh) A4_WIDTH (A4_HEIGHT - (cfg.baseY + eh))])
        ++ (headerOpsFor cfg isFirst
          ++ (footerOpsFor cfg isLast
            ++ (if isLast then [] else [Op.page])))))

/-- The operations the whole `compositeLoop` appends. -/
def loopOps (cfg : Config) : List ℚ → ℚ → Bool → List Op
  | [], _, _ => []
  | eh :: rest, acc, isFirst =>
      stepOps cfg eh acc isFirst rest.isEmpty ++ loopOps cfg rest (acc + eh) false

/-- The header/footer caches hold nothing but the rasterization of this
call's header/footer at `contentWidth` (the only bitmaps `addHeader` and
`addFooter` ever store during one generation call). -/
def CacheOk (cfg : Config) (s : PdfState) : Prop :=
  (s.headerCache = none
    ∨ s.headerCache = some (toCanvas cfg.header cfg.contentWidth))
  ∧ (s.footerCache = none
    ∨ s.footerCache = some (toCanvas cfg.footer cfg.contentWidth))

theorem addHeader_trace (x w : ℚ) (e : El) (s : PdfState)
    (hc : s.headerCache = none ∨ s.headerCache = some (toCanvas e w)) :
    (addHeader x w e s).ops
      = s.ops ++ (if e.isElement then [Op.headerImage x 0 w (toCanvas e w).height] else [])
    ∧ ((addHeader x w e s).headerCache = none
        ∨ (addHeader x w e s).headerCache = some (toCanvas e w))
    ∧ (addHeader x w e s).footerCache = s.footerCache := by
  by_cases he : e.isElement
  · rcases hc with hnone | hsome
    · simp [addHeader, he, hnone]
    · simp [addHeader, he, hsome, emit]
  · simp [addHeader, he, hc]

theorem addFooter_trace (x w : ℚ) (e : El) (s : PdfState)
    (hc : s.footerCache = none ∨ s.footerCache = some (toCanvas e w)) :
    (addFooter x w e s).ops
      = s.ops ++ (if e.isElement then
          [Op.footerImage x (A4_HEIGHT - (toCanvas e w).height) w (toCanvas e w).height]
        else [])
    ∧ ((addFooter x w e s).footerCache = none
        ∨ (addFooter x w e s).footerCache = some (toCanvas e w))
    ∧ (addFooter x w e s).headerCache = s.headerCache := by
  by_cases he : e.isElement
  · rcases hc with hnone | hsome
    · simp [addFooter, he, hnone]
    · simp [addFooter, he, hsome, emit]
  · simp [addFooter, he, hc]

theorem addHeaderIf_trace (cfg : Config) (f : Bool) (s : PdfState)
    (hc : CacheOk cfg s) :
    (addHeaderIf cfg f s).ops = s.ops ++ headerOpsFor cfg f
    ∧ CacheOk cfg (addHeaderIf cfg f s) := by
  rw [addHeaderIf, headerOpsFor]
  by_cases hg : (f || !cfg.headerOnlyFirst) = true
  · rw [if_pos hg, if_pos hg]
    obtain ⟨h1, h2, h3⟩ :=
      addHeader_trace cfg.baseX cfg.contentWidth cfg.header s hc.1
    exact ⟨h1, h2, h3 ▸ hc.2⟩
  · rw [if_neg hg, if_neg hg]
    exact ⟨(List.append_nil _).symm, hc⟩

theorem addFooterIf_trace (cfg : Config) (l : Bool) (s : PdfState)
    (hc : CacheOk cfg s) :
    (addFooterIf cfg l s).ops = s.ops ++ footerOpsFor cfg l
    ∧ CacheOk cfg (addFooterIf cfg l s) := by
  rw [addFooterIf, footerOpsFor]
  by_cases hg : (l || !cfg.footerOnlyLast) = true
  · rw [if_pos hg, if_pos hg]
    obtain ⟨h1, h2, h3⟩ :=
      addFooter_trace cfg.baseX cfg.contentWidth cfg.footer s hc.2
    exact ⟨h1, h3 ▸ hc.1, h2⟩
  · rw [if_neg hg, if_neg hg]
    exact ⟨(List.append_nil _).symm, hc⟩

/-- `φ` appends exactly the operations `L` to any document whose caches are
valid, and keeps the caches valid. -/
def Appends (cfg : Config) (φ : PdfState → PdfState) (L : List Op) : Prop :=
  ∀ s, CacheOk cfg s → (φ s).ops = s.ops ++ L ∧ CacheOk cfg (φ s)

theorem appends_comp {cfg : Config} {φ ψ : PdfState → PdfState}
    {L M : List Op} (h1 : Appends cfg φ L) (h2 : Appends cfg ψ M) :
    Appends cfg (fun s => ψ (φ s)) (L ++ M) := by
  intro s hc
  obtain ⟨o1, c1⟩ := h1 s hc
  obtain ⟨o2, c2⟩ := h2 (φ s) c1
  exact ⟨by rw [o2, o1, List.append_assoc], c2⟩

theorem appends_emit (cfg : Config) (o : Op) :
    Appends cfg (fun s => emit s o) [o] :=
  fun _ hc => ⟨rfl, hc⟩

theorem appends_addBlank (cfg : Config) (x y w h : ℚ) :
    Appends cfg (fun s => addBlank x y w h s) [Op.blank x y w h] :=
  fun _ hc => ⟨rfl, hc⟩

theorem appends_skip_if (cfg : Config) (b : Bool) (φ : PdfState → PdfState)
    (L : List Op) (h : Appends cfg φ L) :
    Appends cfg (fun s => if b then s else φ s) (if b then [] else L) := by
  cases b
  · simpa using h
  · intro s hc
    simpa using hc

theorem compositeStep_trace (cfg : Config) (eh acc : ℚ) (f l : Bool)
    (s : PdfState) (hc : CacheOk cfg s) :
    (compositeStep cfg eh acc f l s).ops = s.ops ++ stepOps cfg eh acc f l
    ∧ CacheOk cfg (compositeStep cfg eh acc f l s) := by
  have e1 : Appends cfg
      (fun s => emit s (Op.image cfg.baseX (cfg.baseY - acc) cfg.width cfg.height))
      [Op.image cfg.baseX (cfg.baseY - acc) cfg.width cfg.height] :=
    appends_emit cfg _
  have b1 : Appends cfg (fun s => if f then s else addBlank 0 0 A4_WIDTH cfg.baseY s)
      (if f then [] else [Op.blank 0 0 A4_WIDTH cfg.baseY]) :=
    appends_skip_if cfg f _ _ (appends_addBlank cfg 0 0 A4_WIDTH cfg.baseY)
  have b2 : Appends cfg (fun s => if l then s else
        addBlank 0 (cfg.baseY + eh) A4_WIDTH (A4_HEIGHT - (cfg.baseY + eh)) s)
      (if l then [] else
        [Op.blank 0 (cfg.baseY + eh) A4_WIDTH (A4_HEIGHT - (cfg.baseY + eh))]) :=
    appends_skip_if cfg l _ _
      (appends_addBlank cfg 0 (cfg.baseY + eh) A4_WIDTH (A4_HEIGHT - (cfg.baseY + eh)))
  have hh : Appends cfg (fun s => addHeaderIf cfg f s) (headerOpsFor cfg f) :=
    fun t ht => addHeaderIf_trace cfg f t ht
  have hf : Appends cfg (fun s => addFooterIf cfg l s) (footerOpsFor cfg l) :=
    fun t ht => addFooterIf_trace cfg l t ht
  have pg : Appends cfg (fun s => if l then s else emit s Op.page)
      (if l then [] else [Op.page]) :=
    appends_skip_if cfg l _ _ (appends_emit cfg Op.page)
  have h := appends_comp (appends_comp (appends_comp (appends_comp
    (appends_comp e1 b1) b2) hh) hf) pg
  obtain ⟨o, c⟩ := h s hc
  have o' : (compositeStep cfg eh acc f l s).ops
      = s.ops ++ ((((([Op.image cfg.baseX (cfg.baseY - acc) cfg.width cfg.height]
        ++ (if f then [] else [Op.blank 0 0 A4_WIDTH cfg.baseY]))
        ++ (if l then [] else
            [Op.blank 0 (cfg.baseY + eh) A4_WIDTH (A4_HEIGHT - (cfg.baseY + eh))]))
        ++ headerOpsFor cfg f)
        ++ footerOpsFor cfg l)
        ++ (if l then [] else [Op.page])) := o
  have c' : CacheOk cfg (compositeStep cfg eh acc f l s) := c
  exact ⟨by rw [o']; simp [stepOps], c'⟩

theorem compositeLoop_trace (cfg : Config) :
    ∀ (entries : List ℚ) (acc : ℚ) (f : Bool) (s : PdfState), CacheOk cfg s →
      (compositeLoop cfg entries acc f s).ops = s.ops ++ loopOps cfg entries acc f
      ∧ CacheOk cfg (compositeLoop cfg entries acc f s) := by
  intro entries
  induction entries with
  | nil =>
      intro acc f s hc
      exact ⟨by simp [compositeLoop, loopOps], hc⟩
  | cons e rest ih =>
      intro acc f s hc
      obtain ⟨o1, c1⟩ := compositeStep_trace cfg e acc f rest.isEmpty s hc
      obtain ⟨o2, c2⟩ := ih (acc + e) false _ c1
      refine ⟨?_, c2⟩
      rw [compositeLoop, loopOps, o2, o1, List.append_assoc]

/-- Recognize an `addPage` operation. -/
def isPageOp : Op → Bool
  | Op.page => true
  | _ => false

/-- Recognize a header stamp. -/
def isHeaderOp : Op → Bool
  | Op.headerImage _ _ _ _ => true
  | _ => false

/-- Number of `addPage` calls in a trace. -/
def countPage (l : List Op) : Nat := l.countP isPageOp

/-- Number of header stamps in a trace. -/
def countHeader (l : List Op) : Nat := l.countP isHeaderOp

theorem countPage_append (l1 l2 : List Op) :
    countPage (l1 ++ l2) = countPage l1 + countPage l2 :=
  List.countP_append _ _ _

theorem countHeader_append (l1 l2 : List Op) :
    countHeader (l1 ++ l2) = countHeader l1 + countHeader l2 :=
  List.countP_append _ _ _

theorem countPage_headerOpsFor (cfg : Config) (f : Bool) :
    countPage (headerOpsFor cfg f) = 0 := by
  rw [headerOpsFor]
  split_ifs <;> simp [countPage, isPageOp]

theorem countPage_footerOpsFor (cfg : Config) (l : Bool) :
    countPage (footerOpsFor cfg l) = 0 := by
  rw [footerOpsFor]
  split_ifs <;> simp [countPage, isPageOp]

theorem countHeader_footerOpsFor (cfg : Config) (l : Bool) :
    countHeader (footerOpsFor cfg l) = 0 := by
  rw [footerOpsFor]
  split_ifs <;> simp [countHeader, isHeaderOp]

theorem countHeader_headerOpsFor (cfg : Config) (f : Bool) :
    countHeader (headerOpsFor cfg f)
      = if (f || !cfg.headerOnlyFirst) && cfg.header.isElement then 1 else 0 := by
  rw [headerOpsFor]
  cases hg : (f || !cfg.headerOnlyFirst) <;> cases he : cfg.header.isElement <;>
    simp [hg, he, countHeader, isHeaderOp]

theorem countPage_cons_of_not (o : Op) (rest : List Op) (ho : isPageOp o = false) :
    countPage (o :: rest) = countPage rest := by
  simp [countPage, List.countP_cons, ho]

theorem countHeader_cons_of_not (o : Op) (rest : List Op) (ho : isHeaderOp o = false) :
    countHeader (o :: rest) = countHeader rest := by
  simp [countHeader, List.countP_cons, ho]

theorem countPage_stepOps (cfg : Config) (eh acc : ℚ) (f l : Bool) :
    countPage (stepOps cfg eh acc f l) = if l then 0 else 1 := by
  rw [stepOps, countPage_cons_of_not
      (Op.image cfg.baseX (cfg.baseY - acc) cfg.width cfg.height) _ rfl,
    countPage_append, countPage_append, countPage_append, countPage_append,
    countPage_headerOpsFor, countPage_footerOpsFor]
  cases l <;> cases f <;> simp [countPage, isPageOp]

theorem countHeader_stepOps (cfg : Config) (eh acc : ℚ) (f l : Bool) :
    countHeader (stepOps cfg eh acc f l) = countHeader (headerOpsFor cfg f) := by
  rw [stepOps, countHeader_cons_of_not
      (Op.image cfg.baseX (cfg.baseY - acc) cfg.width cfg.height) _ rfl,
    countHeader_append, countHeader_append, countHeader_append, countHeader_append,
    countHeader_footerOpsFor]
  cases l <;> cases f <;> simp [countHeader, isHeaderOp]

theorem countPage_loopOps (cfg : Config) :
    ∀ (entries : List ℚ) (acc : ℚ) (f : Bool), entries ≠ [] →
      countPage (loopOps cfg entries acc f) = entries.length - 1 := by
  intro entries
  induction entries with
  | nil => intro acc f h; exact absurd rfl h
  | cons e rest ih =>
      intro acc f _
      rw [loopOps, countPage_append, countPage_stepOps]
      cases rest with
      | nil => simp [loopOps, countPage]
      | cons r rs =>
          rw [ih (acc + e) false (by simp)]
          simp
          omega

/-- The operations of page `j` (0-based) of a composition over the given
break sequence started at accumulator 0: its declared entry height is
`entries[j]`, its cumulative offset the sum of the previous entries, and it
is first (last) iff `j = 0` (`j = entries.length - 1`). -/
def blockOps (cfg : Config) (entries : List ℚ) (j : Nat) : List Op :=
  stepOps cfg (entries.getD j 0) ((entries.take j).sum)
    (decide (j = 0)) (decide (j = entries.length - 1))

theorem loopOps_blocks (cfg : Config) :
    ∀ (entries : List ℚ) (acc : ℚ) (f : Bool),
      loopOps cfg entries acc f
        = ((List.range entries.length).map (fun j =>
            stepOps cfg (entries.getD j 0) (acc + (entries.take j).sum)
              (f && decide (j = 0)) (decide (j = entries.length - 1)))).flatten := by
  intro entries
  induction entries with
  | nil => intro acc f; simp [loopOps]
  | cons e rest ih =>
      intro acc f
      rw [loopOps, ih (acc + e) false]
      have hemp : rest.isEmpty = decide (0 = rest.length) := by
        cases rest <;> simp
      simp only [List.length_cons, List.range_succ_eq_map, List.map_cons,
        List.flatten_cons, List.map_map]
      congr 1
      · rw [hemp]
        simp [Nat.succ_sub_one]
      · apply congrArg List.flatten
        apply List.map_congr_left
        intro j hj
        have hjn : j < rest.length := List.mem_range.mp hj
        have h3 : decide (j + 1 = rest.length) = decide (j = rest.length - 1) :=
          decide_eq_decide.mpr (by omega)
        simp [Function.comp, h3, add_assoc]

theorem loopOps_blockOps (cfg : Config) (entries : List ℚ) :
    loopOps cfg entries 0 true
      = ((List.range entries.length).map (blockOps cfg entries)).flatten := by
  rw [loopOps_blocks cfg entries 0 true]
  apply congrArg List.flatten
  apply List.map_congr_left
  intro j _
  rw [blockOps]
  simp

theorem fixedFold_trace (cfg : Config) (N : Nat) :
    ∀ (l : List Nat) (s : PdfState), CacheOk cfg s →
      ((l.foldl (fun (st : PdfState) (i : Nat) =>
          compositeStep cfg cfg.contentHeight ((i : ℚ) * cfg.contentHeight)
            (decide (i = 0)) (decide (i = N - 1)) st) s).ops
        = s.ops ++ (l.map (fun (i : Nat) =>
            stepOps cfg cfg.contentHeight ((i : ℚ) * cfg.contentHeight)
              (decide (i = 0)) (decide (i = N - 1)))).flatten)
      ∧ CacheOk cfg (l.foldl (fun (st : PdfState) (i : Nat) =>
          compositeStep cfg cfg.contentHeight ((i : ℚ) * cfg.contentHeight)
            (decide (i = 0)) (decide (i = N - 1)) st) s) := by
  intro l
  induction l with
  | nil => intro s hc; exact ⟨by simp, hc⟩
  | cons i t ih =>
      intro s hc
      obtain ⟨o1, c1⟩ := compositeStep_trace cfg cfg.contentHeight
        ((i : ℚ) * cfg.contentHeight) (decide (i = 0)) (decide (i = N - 1)) s hc
      obtain ⟨o2, c2⟩ := ih _ c1
      refine ⟨?_, c2⟩
      rw [List.foldl_cons, o2, o1]
      simp [List.append_assoc]

theorem outputWithFixedSize_trace (cfg : Config) (s : PdfState)
    (hc : CacheOk cfg s) :
    (outputWithFixedSize cfg s).ops
      = s.ops ++ ((List.range (fixedPageNum cfg)).map (fun (i : Nat) =>
          stepOps cfg cfg.contentHeight ((i : ℚ) * cfg.contentHeight)
            (decide (i = 0)) (decide (i = fixedPageNum cfg - 1)))).flatten
    ∧ CacheOk cfg (outputWithFixedSize cfg s) := by
  rw [outputWithFixedSize]
  exact fixedFold_trace cfg (fixedPageNum cfg) (List.range (fixedPageNum cfg)) s hc

theorem sum_range_indicator (N : Nat) (hN : 1 ≤ N) :
    ((List.range N).map (fun i => if i = N - 1 then 0 else 1)).sum = N - 1 := by
  obtain ⟨m, rfl⟩ : ∃ m, N = m + 1 := ⟨N - 1, by omega⟩
  rw [List.range_succ, List.map_append, List.sum_append]
  have h1 : (List.range m).map (fun i => if i = m + 1 - 1 then 0 else 1)
      = (List.range m).map (fun _ => 1) := by
    apply List.map_congr_left
    intro a ha
    have : a < m := List.mem_range.mp ha
    rw [if_neg (by omega)]
  rw [h1, List.map_const', List.sum_replicate]
  simp

/-- **C5.** For every break sequence of `N ≥ 1` entries, the Page Compositor
produces exactly `N` pages (one initial jsPDF page plus `N - 1` `addPage`
calls): a step compositing the final entry makes no `addPage` call, and a
step compositing any non-final entry makes exactly one, as its last
operation. -/
theorem compositor_page_count (cfg : Config) (entries : List ℚ)
    (hne : entries ≠ []) :
    (compositeLoop cfg entries 0 true initState).ops = loopOps cfg entries 0 true
    ∧ 1 + countPage (compositeLoop cfg entries 0 true initState).ops = entries.length
    ∧ (∀ (eh acc : ℚ) (f : Bool), countPage (stepOps cfg eh acc f true) = 0)
    ∧ (∀ (eh acc : ℚ) (f : Bool),
        countPage (stepOps cfg eh acc f false) = 1
        ∧ (stepOps cfg eh acc f false).getLast? = some Op.page) := by
  have hc0 : CacheOk cfg initState := ⟨Or.inl rfl, Or.inl rfl⟩
  obtain ⟨o, _⟩ := compositeLoop_trace cfg entries 0 true initState hc0
  have otr : (compositeLoop cfg entries 0 true initState).ops
      = loopOps cfg entries 0 true := by
    rw [o]; simp [initState]
  refine ⟨otr, ?_, ?_, ?_⟩
  · rw [otr, countPage_loopOps cfg entries 0 true hne]
    have hlen : 0 < entries.length := List.length_pos.mpr hne
    omega
  · intro eh acc f
    simpa using countPage_stepOps cfg eh acc f true
  · intro eh acc f
    constructor
    · simpa using countPage_stepOps cfg eh acc f false
    · have hsplit : stepOps cfg eh acc f false
          = (Op.image cfg.baseX (cfg.baseY - acc) cfg.width cfg.height
              :: ((if f then [] else [Op.blank 0 0 A4_WIDTH cfg.baseY])
                ++ ([Op.blank 0 (cfg.baseY + eh) A4_WIDTH (A4_HEIGHT - (cfg.baseY + eh))]
                  ++ (headerOpsFor cfg f ++ footerOpsFor cfg false))))
            ++ [Op.page] := by
        rw [stepOps]; simp
      rw [hsplit, List.getLast?_concat]

theorem compositor_page_count_witness :
    ∃ (cfg : Config),
      1 + countPage (compositeLoop cfg [300, 700] 0 true initState).ops = 2 := by
  refine ⟨⟨0, 0, 550, 800, 550, 1000, emptyRoot, emptyRoot, true, true⟩, ?_⟩
  exact (compositor_page_count _ [300, 700] (by simp)).2.1

/-- **C6.** For every break sequence (hence every number of pages `N`) and
every valid (element-like) header, when `headerOnlyFirst` is true the header
is stamped exactly once and only in page 0's block, and when it is false it
is stamped exactly once in every one of the `N` per-page blocks, the
concatenation of which is the compositor's trace. -/
theorem header_stamp_policy (cfg : Config) (entries : List ℚ)
    (hv : cfg.header.isElement = true) :
    (compositeLoop cfg entries 0 true initState).ops
      = ((List.range entries.length).map (blockOps cfg entries)).flatten
    ∧ (cfg.headerOnlyFirst = true → ∀ j < entries.length,
        countHeader (blockOps cfg entries j) = if j = 0 then 1 else 0)
    ∧ (cfg.headerOnlyFirst = false → ∀ j < entries.length,
        countHeader (blockOps cfg entries j) = 1) := by
  have hc0 : CacheOk cfg initState := ⟨Or.inl rfl, Or.inl rfl⟩
  obtain ⟨o, _⟩ := compositeLoop_trace cfg entries 0 true initState hc0
  refine ⟨?_, ?_, ?_⟩
  · rw [o, loopOps_blockOps]; simp [initState]
  · intro hof j _
    rw [blockOps, countHeader_stepOps, countHeader_headerOpsFor, hv, hof]
    by_cases hj0 : j = 0
    · simp [hj0]
    · simp [hj0]
  · intro hof j _
    rw [blockOps, countHeader_stepOps, countHeader_headerOpsFor, hv, hof]
    simp

/-- A header/footer element whose rasterization is 550 wide and 60 tall. -/
def bandEl : El :=
  { isElement := true, canvasWidth := 550, canvasHeight := 60,
    offsetWidth := 550, children := [] }

/-- A non-element value passed where a header/footer element is expected. -/
def notAnElement : El :=
  { isElement := false, canvasWidth := 0, canvasHeight := 0,
    offsetWidth := 0, children := [] }

theorem header_stamp_policy_witness :
    countHeader (blockOps
      ⟨0, 0, 550, 800, 550, 1000, bandEl, bandEl, true, true⟩ [300, 700] 1) = 0 := by
  have h := (header_stamp_policy
    ⟨0, 0, 550, 800, 550, 1000, bandEl, bandEl, true, true⟩ [300, 700] rfl).2.1
  simpa using h rfl 1 (by simp)

/-- **C7.** For every rendered-image height `> 0` and `contentHeight > 0`,
fixed-mode pagination produces exactly `⌈height / contentHeight⌉` pages
(one initial page plus that many minus one `addPage` calls), page `i`'s block
placing the shared image at `(baseX, baseY - i * contentHeight)`; in
particular height 2000 with `contentHeight` 800 yields 3 pages. -/
theorem fixed_mode_pages (cfg : Config)
    (hh : 0 < cfg.height) (hc : 0 < cfg.contentHeight) :
    (outputWithFixedSize cfg initState).ops
      = ((List.range (fixedPageNum cfg)).map (fun (i : Nat) =>
          stepOps cfg cfg.contentHeight ((i : ℚ) * cfg.contentHeight)
            (decide (i = 0)) (decide (i = fixedPageNum cfg - 1)))).flatten
    ∧ (∀ i : Nat, (stepOps cfg cfg.contentHeight ((i : ℚ) * cfg.contentHeight)
          (decide (i = 0)) (decide (i = fixedPageNum cfg - 1))).head?
        = some (Op.image cfg.baseX (cfg.baseY - (i : ℚ) * cfg.contentHeight)
            cfg.width cfg.height))
    ∧ 1 + countPage (outputWithFixedSize cfg initState).ops = fixedPageNum cfg
    ∧ (cfg.height = 2000 → cfg.contentHeight = 800 → fixedPageNum cfg = 3) := by
  have hc0 : CacheOk cfg initState := ⟨Or.inl rfl, Or.inl rfl⟩
  obtain ⟨o, _⟩ := outputWithFixedSize_trace cfg initState hc0
  have otr : (outputWithFixedSize cfg initState).ops
      = ((List.range (fixedPageNum cfg)).map (fun (i : Nat) =>
          stepOps cfg cfg.contentHeight ((i : ℚ) * cfg.contentHeight)
            (decide (i = 0)) (decide (i = fixedPageNum cfg - 1)))).flatten := by
    rw [o]; simp [initState]
  have hN : 1 ≤ fixedPageNum cfg := by
    have hpos : 0 < ⌈cfg.height / cfg.contentHeight⌉ :=
      Int.ceil_pos.mpr (div_pos hh hc)
    rw [fixedPageNum]
    omega
  refine ⟨otr, ?_, ?_, ?_⟩
  · intro i
    rw [stepOps]
    rfl
  · rw [otr]
    have hcount : countPage (((List.range (fixedPageNum cfg)).map (fun (i : Nat) =>
        stepOps cfg cfg.contentHeight ((i : ℚ) * cfg.contentHeight)
          (decide (i = 0)) (decide (i = fixedPageNum cfg - 1)))).flatten)
        = ((List.range (fixedPageNum cfg)).map
            (fun i => if i = fixedPageNum cfg - 1 then 0 else 1)).sum := by
      rw [countPage, List.countP_flatten, List.map_map]
      apply congrArg List.sum
      apply List.map_congr_left
      intro i _
      have := countPage_stepOps cfg cfg.contentHeight ((i : ℚ) * cfg.contentHeight)
        (decide (i = 0)) (decide (i = fixedPageNum cfg - 1))
      rw [countPage] at this
      rw [Function.comp_apply, this]
      simp
    rw [hcount, sum_range_indicator (fixedPageNum cfg) hN]
    omega
  · intro h1 h2
    rw [fixedPageNum, h1, h2]
    have : ⌈(2000 : ℚ) / 800⌉ = 3 := by
      rw [Int.ceil_eq_iff]
      norm_num
    rw [this]
    rfl

theorem fixed_mode_pages_witness :
    1 + countPage (outputWithFixedSize
      ⟨0, 0, 550, 800, 550, 2000, bandEl, bandEl, true, true⟩ initState).ops
      = fixedPageNum ⟨0, 0, 550, 800, 550, 2000, bandEl, bandEl, true, true⟩ :=
  (fixed_mode_pages ⟨0, 0, 550, 800, 550, 2000, bandEl, bandEl, true, true⟩
    (by norm_num) (by norm_num)).2.2.1

/-! ## The orchestrator -/

/-- The options object accepted by `outputPdf` (defaults already resolved by
JS destructuring, except `x`/`y` whose absence is tested with `== null`). -/
structure Options where
  element : El
  contentWidth : ℚ := 550
  contentHeight : ℚ := 800
  outputType : String := "save"
  filename : String := "document.pdf"
  x : Option ℚ := none
  y : Option ℚ := none
  header : El
  footer : El
  headerOnlyFirst : Bool := true
  footerOnlyLast : Bool := true
  mode : String := "adaptive"

/-- The artifact produced by `jsPDF.API.output2` for the requested
`outputType`. -/
inductive Artifact where
  | saved (filename : String)
  | fileObj (filename : String)
  | passthrough (kind : String)
deriving DecidableEq

/-- `jsPDF.API.output2`: `'file'` wraps the bytes as a named file object,
`'save'` persists under `filename`, anything else is passed through to
`jsPDF.output`. -/
def output2 (outputType filename : String) : Artifact :=
  if outputType = "file" then Artifact.fileObj filename
  else if outputType = "save" then Artifact.saved filename
  else Artifact.passthrough outputType

/-- `outputPdf`: validate the root element (throwing
`'The root element must be HTMLElement.'` before any rasterization when it is
not element-like), rasterize the root once, compute the default centering
origin, dispatch on `mode` (`'adaptive'`, with `'fixed'` and anything else
falling through to the fixed pager), and serialize via `output2`. -/
def outputPdf (o : Options) : Except String (PdfState × Artifact) :=
  if !o.element.isElement then
    Except.error "The root element must be HTMLElement."
  else
    let img := toCanvas o.element o.contentWidth
    let baseX := o.x.getD ((A4_WIDTH - o.contentWidth) / 2)
    let baseY := o.y.getD ((A4_HEIGHT - o.contentHeight) / 2)
    let cfg : Config :=
      { baseX := baseX, baseY := baseY,
        contentWidth := o.contentWidth, contentHeight := o.contentHeight,
        width := img.width, height := img.height,
        header := o.header, footer := o.footer,
        headerOnlyFirst := o.headerOnlyFirst, footerOnlyLast := o.footerOnlyLast }
    let s0 : PdfState := { initState with rootRaster := initState.rootRaster + 1 }
    let s1 :=
      if o.mode = "adaptive" then outputWithAdaptive cfg o.element s0
      else outputWithFixedSize cfg s0
    Except.ok (s1, output2 o.outputType o.filename)

/-! ## Input validation and header/footer caching -/

/-- **C8.** For every input whose `element` option is not an element-like
node, `outputPdf` fails with the input-validation error before any
rasterization is performed: no success value (no document state, hence no
rasterizer invocation, and no output artifact) is ever produced. -/
theorem invalid_root_rejected (o : Options) (h : o.element.isElement = false) :
    outputPdf o = Except.error "The root element must be HTMLElement."
    ∧ ∀ r : PdfState × Artifact, outputPdf o ≠ Except.ok r := by
  have herr : outputPdf o = Except.error "The root element must be HTMLElement." := by
    rw [outputPdf]
    simp [h]
  refine ⟨herr, fun r hr => ?_⟩
  rw [herr] at hr
  exact Except.noConfusion hr

theorem invalid_root_rejected_witness :
    outputPdf { element := notAnElement, header := bandEl, footer := bandEl }
      = Except.error "The root element must be HTMLElement." :=
  (invalid_root_rejected
    { element := notAnElement, header := bandEl, footer := bandEl } rfl).1

theorem addHeader_miss (x w : ℚ) (hd : El) (s : PdfState)
    (hhd : hd.isElement = true) (hch : s.headerCache = none) :
    (addHeader x w hd s).headerRaster = s.headerRaster + 1
    ∧ (addHeader x w hd s).headerCache = some (toCanvas hd w) := by
  simp [addHeader, hhd, hch]

theorem addHeader_hit (x w : ℚ) (hd : El) (s : PdfState) (img : Img)
    (hs : s.headerCache = some img) :
    (addHeader x w hd s).headerRaster = s.headerRaster
    ∧ (addHeader x w hd s).headerCache = some img := by
  by_cases hhd : hd.isElement
  · simp [addHeader, hhd, hs, emit]
  · simp [addHeader, hhd, hs]

theorem addFooter_miss (x w : ℚ) (ft : El) (s : PdfState)
    (hft : ft.isElement = true) (hcf : s.footerCache = none) :
    (addFooter x w ft s).footerRaster = s.footerRaster + 1
    ∧ (addFooter x w ft s).footerCache = some (toCanvas ft w) := by
  simp [addFooter, hft, hcf]

theorem addFooter_hit (x w : ℚ) (ft : El) (s : PdfState) (img : Img)
    (hs : s.footerCache = some img) :
    (addFooter x w ft s).footerRaster = s.footerRaster
    ∧ (addFooter x w ft s).footerCache = some img := by
  by_cases hft : ft.isElement
  · simp [addFooter, hft, hs, emit]
  · simp [addFooter, hft, hs]

theorem addHeader_iter_hit (x w : ℚ) (hd : El) :
    ∀ (m : Nat) (s : PdfState) (img : Img), s.headerCache = some img →
      ((fun st => addHeader x w hd st)^[m] s).headerRaster = s.headerRaster
      ∧ ((fun st => addHeader x w hd st)^[m] s).headerCache = some img := by
  intro m
  induction m with
  | zero => intro s img hs; simp [hs]
  | succ k ih =>
      intro s img hs
      rw [Function.iterate_succ_apply]
      obtain ⟨h1, h2⟩ := addHeader_hit x w hd s img hs
      obtain ⟨h3, h4⟩ := ih (addHeader x w hd s) img h2
      exact ⟨by rw [h3, h1], h4⟩

theorem addFooter_iter_hit (x w : ℚ) (ft : El) :
    ∀ (m : Nat) (s : PdfState) (img : Img), s.footerCache = some img →
      ((fun st => addFooter x w ft st)^[m] s).footerRaster = s.footerRaster
      ∧ ((fun st => addFooter x w ft st)^[m] s).footerCache = some img := by
  intro m
  induction m with
  | zero => intro s img hs; simp [hs]
  | succ k ih =>
      intro s img hs
      rw [Function.iterate_succ_apply]
      obtain ⟨h1, h2⟩ := addFooter_hit x w ft s img hs
      obtain ⟨h3, h4⟩ := ih (addFooter x w ft s) img h2
      exact ⟨by rw [h3, h1], h4⟩

/-- **C9.** Within one generation call, stamping the same valid header (or
footer) `n ≥ 1` times starting from a fresh cache invokes the underlying
rasterizer exactly once for that role: the first stamp rasterizes and caches
the bitmap, and every subsequent stamp reuses the cached bitmap. -/
theorem header_footer_raster_once (x w : ℚ) (hd ft : El) (s : PdfState)
    (n : Nat) (hn : 1 ≤ n) (hhd : hd.isElement = true) (hft : ft.isElement = true)
    (hch : s.headerCache = none) (hcf : s.footerCache = none) :
    ((fun st => addHeader x w hd st)^[n] s).headerRaster = s.headerRaster + 1
    ∧ ((fun st => addHeader x w hd st)^[n] s).headerCache = some (toCanvas hd w)
    ∧ ((fun st => addFooter x w ft st)^[n] s).footerRaster = s.footerRaster + 1
    ∧ ((fun st => addFooter x w ft st)^[n] s).footerCache = some (toCanvas ft w) := by
  obtain ⟨m, rfl⟩ : ∃ m, n = m + 1 := ⟨n - 1, by omega⟩
  rw [Function.iterate_succ_apply, Function.iterate_succ_apply]
  obtain ⟨h1, h2⟩ := addHeader_miss x w hd s hhd hch
  obtain ⟨h3, h4⟩ := addHeader_iter_hit x w hd m (addHeader x w hd s) _ h2
  obtain ⟨g1, g2⟩ := addFooter_miss x w ft s hft hcf
  obtain ⟨g3, g4⟩ := addFooter_iter_hit x w ft m (addFooter x w ft s) _ g2
  exact ⟨by rw [h3, h1], h4, by rw [g3, g1], g4⟩

theorem header_footer_raster_once_witness :
    ((fun st => addHeader 0 550 bandEl st)^[2] initState).headerRaster
      = initState.headerRaster + 1 :=
  (header_footer_raster_once 0 550 bandEl bandEl initState 2
    (by decide) rfl rfl rfl rfl).1

/-- **C10.** If the header (or footer) option is provided but is not an
element-like node, the stamping operation is a silent no-op: it draws
nothing, raises no error, and leaves the document state (trace, caches,
rasterizer counters) completely unchanged. -/
theorem invalid_header_footer_noop (x w : ℚ) (hd ft : El) (s : PdfState)
    (hhd : hd.isElement = false) (hft : ft.isElement = false) :
    addHeader x w hd s = s ∧ addFooter x w ft s = s := by
  constructor
  · simp [addHeader, hhd]
  · simp [addFooter, hft]

theorem invalid_header_footer_noop_witness :
    addHeader 0 550 notAnElement initState = initState
    ∧ addFooter 0 550 notAnElement initState = initState :=
  invalid_header_footer_noop 0 550 notAnElement notAnElement initState rfl rfl

/-! ## Blanking rectangles versus the content band -/

/-- Whether the rectangle actually drawn by the recorded `addBlank` call
(vertical extent `y` to `y + ⌈h⌉`, per the `Math.ceil` in `addBlank`)
overlaps the open content band from `baseY` to `baseY + eh`. -/
def blankOverlapsBand (baseY eh : ℚ) : Op → Bool
  | Op.blank _ y _ h => decide (max y baseY < min (drawnBottom y h) (baseY + eh))
  | _ => false

/-- The default configuration for `contentWidth = 550`, `contentHeight = 800`
and a rendered image 1600 tall: centered content box, so
`baseY = (841.89 - 800) / 2 = 20.945`, two fixed-mode pages. -/
def cfgC1 : Config :=
  { baseX := (A4_WIDTH - 550) / 2, baseY := (A4_HEIGHT - 800) / 2,
    contentWidth := 550, contentHeight := 800, width := 550, height := 1600,
    header := notAnElement, footer := notAnElement,
    headerOnlyFirst := true, footerOnlyLast := true }

theorem mem_headerOpsFor (cfg : Config) (f : Bool) (o : Op)
    (ho : o ∈ headerOpsFor cfg f) : isHeaderOp o = true := by
  rw [headerOpsFor] at ho
  split_ifs at ho
  · rw [List.mem_singleton] at ho; subst ho; rfl
  · exact absurd ho (List.not_mem_nil o)
  · exact absurd ho (List.not_mem_nil o)

theorem mem_footerOpsFor (cfg : Config) (l : Bool) (o : Op)
    (ho : o ∈ footerOpsFor cfg l) :
    o = Op.footerImage cfg.baseX
      (A4_HEIGHT - (toCanvas cfg.footer cfg.contentWidth).height)
      cfg.contentWidth (toCanvas cfg.footer cfg.contentWidth).height := by
  rw [footerOpsFor] at ho
  split_ifs at ho
  · exact List.mem_singleton.mp ho
  · exact absurd ho (List.not_mem_nil o)
  · exact absurd ho (List.not_mem_nil o)

/-- **C1 counterexample.** With the default centered content box
(`baseY = 20.945`, fractional), the trace of a two-page fixed-mode
composition contains the top blanking call `addBlank(0, 0, A4_WIDTH, baseY)`,
and the rectangle it actually draws — `Math.ceil` rounds its height up to 21
— does overlap the content band it is adjacent to. -/
theorem blanking_overlap_counterexample :
    Op.blank 0 0 A4_WIDTH ((A4_HEIGHT - 800) / 2)
        ∈ (outputWithFixedSize cfgC1 initState).ops
    ∧ blankOverlapsBand ((A4_HEIGHT - 800) / 2) 800
        (Op.blank 0 0 A4_WIDTH ((A4_HEIGHT - 800) / 2)) = true := by
  have hceil : ⌈((A4_HEIGHT - 800) / 2 : ℚ)⌉ = 21 := by
    rw [A4_HEIGHT, Int.ceil_eq_iff]
    norm_num
  constructor
  · have hN : fixedPageNum cfgC1 = 2 := by
      rw [fixedPageNum]
      have h2 : cfgC1.height / cfgC1.contentHeight = (2 : ℚ) := by
        rw [show cfgC1.height = 1600 from rfl, show cfgC1.contentHeight = 800 from rfl]
        norm_num
      rw [h2]
      simp
    obtain ⟨o, _⟩ := outputWithFixedSize_trace cfgC1 initState ⟨Or.inl rfl, Or.inl rfl⟩
    rw [o, hN]
    have hrange : List.range 2 = [0, 1] := rfl
    rw [hrange]
    simp only [List.map_cons, List.map_nil, List.flatten_cons, List.flatten_nil,
      initState, List.nil_append, List.mem_append]
    right; left
    have hby : cfgC1.baseY = (A4_HEIGHT - 800) / 2 := rfl
    simp [stepOps, headerOpsFor, footerOpsFor, hby,
      show cfgC1.header = notAnElement from rfl,
      show cfgC1.footer = notAnElement from rfl, notAnElement]
  · rw [blankOverlapsBand, drawnBottom, hceil]
    rw [decide_eq_true_eq]
    rw [max_eq_right (by rw [A4_HEIGHT]; norm_num),
      min_eq_left (by rw [A4_HEIGHT]; norm_num)]
    rw [A4_HEIGHT]
    norm_num

/-- **C1 (amended).** For every page of either pagination mode (every
`baseY ≥ 0` and declared entry height `eh ≥ 0`), the blanking rectangles as
requested — `(0,0)` to `(A4_WIDTH, baseY)` above and `(0, baseY + eh)` to
`(A4_WIDTH, A4_HEIGHT)` below — never overlap the open content band they are
adjacent to; because `addBlank` rounds the drawn height up with `Math.ceil`,
the drawn rectangle may spill into the band, but the spilled depth is always
less than one point. -/
theorem blanking_requested_disjoint (cfg : Config) (eh acc : ℚ) (f l : Bool)
    (hb : 0 ≤ cfg.baseY) (he : 0 ≤ eh) :
    ∀ o ∈ stepOps cfg eh acc f l, ∀ x y w h : ℚ, o = Op.blank x y w h →
      ¬ (max y cfg.baseY < min (y + h) (cfg.baseY + eh))
      ∧ min (drawnBottom y h) (cfg.baseY + eh) - max y cfg.baseY < 1 := by
  intro o ho x y w h heq
  subst heq
  rw [stepOps] at ho
  simp only [List.mem_cons, List.mem_append] at ho
  rcases ho with himg | htop | hbot | hhd | hft | hpg
  · exact absurd himg (by simp)
  · -- the top mask `addBlank(0, 0, A4_WIDTH, baseY)`
    have hEq : Op.blank x y w h = Op.blank 0 0 A4_WIDTH cfg.baseY := by
      cases f with
      | true => simp at htop
      | false => simpa using htop
    obtain ⟨hx, hy, hw, hh⟩ : x = 0 ∧ y = 0 ∧ w = A4_WIDTH ∧ h = cfg.baseY := by
      injection hEq with h1 h2 h3 h4
      exact ⟨h1, h2, h3, h4⟩
    subst hx; subst hy; subst hw; subst hh
    constructor
    · rw [zero_add, max_eq_right hb, min_eq_left (by linarith)]
      exact lt_irrefl _
    · have h1 : ((⌈cfg.baseY⌉ : ℤ) : ℚ) < cfg.baseY + 1 := Int.ceil_lt_add_one cfg.baseY
      have h2 : min (drawnBottom 0 cfg.baseY) (cfg.baseY + eh)
          ≤ drawnBottom 0 cfg.baseY := min_le_left _ _
      rw [drawnBottom, zero_add] at h2
      rw [max_eq_right hb, drawnBottom, zero_add]
      linarith
  · -- the bottom mask `addBlank(0, baseY + eh, A4_WIDTH, A4_HEIGHT - (baseY + eh))`
    have hEq : Op.blank x y w h
        = Op.blank 0 (cfg.baseY + eh) A4_WIDTH (A4_HEIGHT - (cfg.baseY + eh)) := by
      cases l with
      | true => simp at hbot
      | false => simpa using hbot
    obtain ⟨hx, hy, hw, hh⟩ : x = 0 ∧ y = cfg.baseY + eh ∧ w = A4_WIDTH
        ∧ h = A4_HEIGHT - (cfg.baseY + eh) := by
      injection hEq with h1 h2 h3 h4
      exact ⟨h1, h2, h3, h4⟩
    subst hx; subst hy; subst hw; subst hh
    constructor
    · rw [max_eq_left (by linarith)]
      exact not_lt.mpr (min_le_right _ _)
    · rw [max_eq_left (by linarith)]
      have := min_le_right (drawnBottom (cfg.baseY + eh) (A4_HEIGHT - (cfg.baseY + eh)))
        (cfg.baseY + eh)
      linarith
  · exact absurd (mem_headerOpsFor cfg f _ hhd) (by simp [isHeaderOp])
  · exact absurd (mem_footerOpsFor cfg l _ hft) (by simp)
  · cases l with
    | true => simp at hpg
    | false => simp at hpg

theorem blanking_requested_disjoint_witness :
    ¬ (max (0 : ℚ) cfgC1.baseY < min ((0 : ℚ) + cfgC1.baseY) (cfgC1.baseY + 800)) :=
  ((blanking_requested_disjoint cfgC1 800 0 false true
      (by rw [show cfgC1.baseY = (A4_HEIGHT - 800) / 2 from rfl, A4_HEIGHT]; norm_num)
      (by norm_num))
    (Op.blank 0 0 A4_WIDTH cfgC1.baseY)
    (by simp [stepOps, headerOpsFor, footerOpsFor, notAnElement,
      show cfgC1.header = notAnElement from rfl,
      show cfgC1.footer = notAnElement from rfl])
    0 0 A4_WIDTH cfgC1.baseY rfl).1

end Html2Pdf
